/-
  Verification of the python-sandbox core against its specification.

  Shallow embedding of:
  - app/config.py            (the configured constants, at their defaults)
  - app/core/validator.py    (CodeValidator)
  - app/core/service.py      (ExecutionService.execute_code)
  - app/executors/docker.py  (DockerExecutor.execute, _extract_and_save_files,
                              _truncate_output)
  - app/executors/factory.py (ExecutorRegistry, ExecutorFactory)
  - firecracker-guest-agent/agent.py (GuestAgent)

  Python strings are modelled as Lean String values; len(), slicing and
  str.startswith act on the character sequence (String.data), exactly as
  Python treats str as a sequence of characters.  External effects (the
  Docker daemon, the parser ast.parse, subprocess.run, the filesystem,
  the storage collaborator, JSON serialisation) are modelled as explicit
  inputs or function parameters; everything the repository computes from
  those inputs is translated directly from the source.
-/
import Mathlib

namespace Sandbox

/-! ## Configuration (app/config.py, default values) -/

def FORBIDDEN_IMPORTS : List String :=
  ["os", "subprocess", "socket", "sys",
   "importlib", "ctypes", "__builtin__",
   "builtins", "multiprocessing", "threading"]

def MAX_CODE_LENGTH : Nat := 50000

def MAX_COMPLEXITY : Int := 20

def MAX_OUTPUT_SIZE : Nat := 10240

def MAX_FILE_SIZE : Nat := 10485760

def MAX_TOTAL_SIZE : Nat := 52428800

def MAX_FILE_COUNT : Nat := 10

/-! ## String helpers

Python `str.startswith(p)` is a character-prefix test and `s.lower()` /
`p in s` act on the character sequence; the builtin Lean `String`
operations on byte positions do not reduce in the kernel, so we model
them directly on `String.data`. -/

/-- Models Python `s.startswith(p)`: character-prefix test. -/
def pyStartswith (s p : String) : Bool := p.data.isPrefixOf s.data

/-- Models Python `s.lower()` (ASCII-sufficient for the error texts involved). -/
def pyLower (s : String) : String := ⟨s.data.map Char.toLower⟩

/-- Models Python substring membership `pat in s`. -/
def listContainsSub (pat : List Char) : List Char → Bool
  | [] => pat.isEmpty
  | c :: rest => pat.isPrefixOf (c :: rest) || listContainsSub pat rest

/-- Models Python `pat in s` on strings. -/
def pyContains (s pat : String) : Bool := listContainsSub pat.data s.data

/-- Models Python `s[:n]` (character slice). -/
def pySlice (s : String) (n : Nat) : String := ⟨s.data.take n⟩

/-- Split a character list on a separator character; `splitOnChar sep l`
always returns at least one (possibly empty) group, like Python
`str.split(sep)`. -/
def splitOnChar (sep : Char) : List Char → List (List Char)
  | [] => [[]]
  | c :: rest =>
    if c = sep then [] :: splitOnChar sep rest
    else
      match splitOnChar sep rest with
      | [] => [[c]]
      | g :: gs => (c :: g) :: gs

/-- Models Python `s.split(sep)` for a one-character separator. -/
def pySplit (s : String) (sep : Char) : List String :=
  (splitOnChar sep s.data).map (fun g => ⟨g⟩)

/-- Models Python `s.strip()` (trim ASCII whitespace on both ends). -/
def pyStrip (s : String) : String :=
  ⟨((s.data.dropWhile Char.isWhitespace).reverse.dropWhile Char.isWhitespace).reverse⟩

/-! ## Python AST model

The validator walks the tree produced by `ast.parse` with `ast.walk` and
inspects only the node kinds below; every other node kind (FunctionDef,
Assign, BinOp, Expr, ...) is represented by `pyOther` carrying its child
nodes.  Leaf helper nodes that match none of the `isinstance` checks and
have no children of their own (`ast.alias` under imports, the `ast.And` /
`ast.Or` operator object of a `BoolOp`) are omitted; they contribute
nothing to any traversal.  A comprehension clause (`ast.comprehension`)
is itself a node visited by `ast.walk` and is modelled by
`pyComprehension`.  Generator expressions (`ast.GeneratorExp`) are kept
distinct from the three comprehension kinds because
`_calculate_complexity` matches only `ListComp`, `DictComp`, `SetComp`. -/

inductive PyConst : Type where
  | pyTrue
  | pyFalse
  | pyNone
  | pyInt (n : Int)
  | pyStr (s : String)

mutual

inductive PyAst : Type where
  | pyImport (names : List String)
  | pyImportFrom (module : Option String)
  | pyIf (test : PyAst) (body orelse : PyAstList)
  | pyWhile (test : PyAst) (body orelse : PyAstList)
  | pyFor (target iter : PyAst) (body orelse : PyAstList)
  | pyTry (body handlers orelse finalbody : PyAstList)
  | pyExceptHandler (body : PyAstList)
  | pyBoolOp (values : PyAstList)
  | pyCall (func : PyAst) (args : PyAstList)
  | pyName (id : String)
  | pyConstant (value : PyConst)
  | pyListComp (elt : PyAst) (generators : PyAstList)
  | pyDictComp (key value : PyAst) (generators : PyAstList)
  | pySetComp (elt : PyAst) (generators : PyAstList)
  | pyGeneratorExp (elt : PyAst) (generators : PyAstList)
  | pyComprehension (target iter : PyAst) (ifs : PyAstList)
  | pyModule (body : PyAstList)
  | pyOther (children : PyAstList)

inductive PyAstList : Type where
  | nil
  | cons (head : PyAst) (tail : PyAstList)

end

def PyAstList.toList : PyAstList → List PyAst
  | .nil => []
  | .cons h t => h :: t.toList

/-- Build a `PyAstList` from a plain list (for concrete example trees). -/
def pl : List PyAst → PyAstList
  | [] => .nil
  | h :: t => .cons h (pl t)

def PyAstList.lenP : PyAstList → Nat
  | .nil => 0
  | .cons _ t => t.lenP + 1

/-- The child nodes of a node, as visited by `ast.walk`
(`ast.iter_child_nodes` restricted to the modelled node kinds). -/
def children : PyAst → List PyAst
  | .pyImport _ => []
  | .pyImportFrom _ => []
  | .pyIf t b o => t :: (b.toList ++ o.toList)
  | .pyWhile t b o => t :: (b.toList ++ o.toList)
  | .pyFor tg it b o => tg :: it :: (b.toList ++ o.toList)
  | .pyTry b h o f => b.toList ++ h.toList ++ o.toList ++ f.toList
  | .pyExceptHandler b => b.toList
  | .pyBoolOp vs => vs.toList
  | .pyCall f a => f :: a.toList
  | .pyName _ => []
  | .pyConstant _ => []
  | .pyListComp e g => e :: g.toList
  | .pyDictComp k v g => k :: v :: g.toList
  | .pySetComp e g => e :: g.toList
  | .pyGeneratorExp e g => e :: g.toList
  | .pyComprehension t i ifs => t :: i :: ifs.toList
  | .pyModule b => b.toList
  | .pyOther cs => cs.toList

mutual

def sizeT : PyAst → Nat
  | .pyImport _ => 1
  | .pyImportFrom _ => 1
  | .pyIf t b o => 1 + sizeT t + sizeP b + sizeP o
  | .pyWhile t b o => 1 + sizeT t + sizeP b + sizeP o
  | .pyFor tg it b o => 1 + sizeT tg + sizeT it + sizeP b + sizeP o
  | .pyTry b h o f => 1 + sizeP b + sizeP h + sizeP o + sizeP f
  | .pyExceptHandler b => 1 + sizeP b
  | .pyBoolOp vs => 1 + sizeP vs
  | .pyCall f a => 1 + sizeT f + sizeP a
  | .pyName _ => 1
  | .pyConstant _ => 1
  | .pyListComp e g => 1 + sizeT e + sizeP g
  | .pyDictComp k v g => 1 + sizeT k + sizeT v + sizeP g
  | .pySetComp e g => 1 + sizeT e + sizeP g
  | .pyGeneratorExp e g => 1 + sizeT e + sizeP g
  | .pyComprehension t i ifs => 1 + sizeT t + sizeT i + sizeP ifs
  | .pyModule b => 1 + sizeP b
  | .pyOther cs => 1 + sizeP cs

def sizeP : PyAstList → Nat
  | .nil => 0
  | .cons h t => sizeT h + sizeP t

end

def sizeL : List PyAst → Nat
  | [] => 0
  | h :: t => sizeT h + sizeL t

/-- Breadth-first traversal worklist step, with explicit fuel so that the
definition is structural and computes; `walk` supplies fuel `sizeL q`,
which is exactly the number of nodes the traversal yields. -/
def walkAux : Nat → List PyAst → List PyAst
  | _, [] => []
  | 0, _ :: _ => []
  | fuel + 1, n :: rest => n :: walkAux fuel (rest ++ children n)

/-- Models `ast.walk`: breadth-first enumeration of all nodes reachable
from the given worklist. -/
def walk (q : List PyAst) : List PyAst := walkAux (sizeL q) q

/-! ## CodeValidator (app/core/validator.py) -/

/-- Models `alias.name.split(".")[0]` / `node.module.split(".")[0]`. -/
def topLevelName (name : String) : String := (pySplit name '.').headD ""

/-- The loop body of `_check_imports` for one walked node. -/
def importStep (forbidden_found : List String) (node : PyAst) : List String :=
  match node with
  | .pyImport names =>
      forbidden_found ++
        names.filter (fun n => FORBIDDEN_IMPORTS.contains (topLevelName n))
  | .pyImportFrom (some m) =>
      if FORBIDDEN_IMPORTS.contains (topLevelName m) then forbidden_found ++ [m]
      else forbidden_found
  | _ => forbidden_found

/-- `CodeValidator._check_imports`: walk the tree, collecting the dotted
name of every `import` alias and every `from ... import` module whose
top-level name is in the forbidden set. -/
def check_imports (tree : PyAst) : List String :=
  (walk [tree]).foldl importStep []

/-- `isinstance(node.test, ast.Constant) and node.test.value is True`. -/
def isConstTrue : PyAst → Bool
  | .pyConstant .pyTrue => true
  | _ => false

def DANGEROUS_BUILTINS : List String := ["eval", "exec", "compile", "__import__"]

/-- The loop body of `_check_patterns` for one walked node: first the
infinite-loop check, then the dangerous-builtin check. -/
def patternStep1 (acc : List String) (node : PyAst) : List String :=
  let acc :=
    match node with
    | .pyWhile test _ _ =>
        if isConstTrue test then
          acc ++ ["Potential infinite loop detected (while True)"]
        else acc
    | _ => acc
  match node with
  | .pyCall (.pyName id) _ =>
      if DANGEROUS_BUILTINS.contains id then
        acc ++ ["Dangerous builtin usage: " ++ id]
      else acc
  | _ => acc

/-- `CodeValidator._check_patterns`: advisory findings (while-True loops
and direct calls to dynamic-evaluation builtins). -/
def check_patterns (tree : PyAst) : List String :=
  (walk [tree]).foldl patternStep1 []

/-- The loop body of `_calculate_complexity` for one walked node. -/
def complexityStep (complexity : Int) (node : PyAst) : Int :=
  match node with
  | .pyIf _ _ _ => complexity + 1
  | .pyWhile _ _ _ => complexity + 1
  | .pyFor _ _ _ _ => complexity + 1
  | .pyExceptHandler _ => complexity + 1
  | .pyBoolOp values => complexity + ((values.lenP : Int) - 1)
  | .pyListComp _ g => complexity + (g.lenP : Int)
  | .pyDictComp _ _ g => complexity + (g.lenP : Int)
  | .pySetComp _ g => complexity + (g.lenP : Int)
  | _ => complexity

/-- `CodeValidator._calculate_complexity`: 1 plus one per
If/While/For/ExceptHandler, `len(values) - 1` per BoolOp,
`len(generators)` per ListComp/DictComp/SetComp, folded over `ast.walk`. -/
def calculate_complexity (tree : PyAst) : Int :=
  (walk [tree]).foldl complexityStep 1

/-- The outcome of `ast.parse(code)`: a tree, a `SyntaxError` (line and
message), or any other parsing exception. -/
inductive ParseResult : Type where
  | ok (tree : PyAst)
  | synError (lineno : Int) (msg : String)
  | otherError (msg : String)

/-- Checks 3 to 5 of `CodeValidator.validate` (the block that runs once
`ast.parse` has produced a tree): forbidden imports (fatal,
short-circuit), advisory warnings, complexity (fatal).  The source's
local variables (`forbidden_found`, `warnings`, `errors`, `complexity`)
are inlined. -/
def validate_tree (tree : PyAst) : Bool × List String :=
  if !(check_imports tree).isEmpty then
    (false, (check_imports tree).map (fun imp => "Forbidden import: " ++ imp))
  else if calculate_complexity tree > MAX_COMPLEXITY then
    (false, (check_patterns tree).map (fun w => "Warning: " ++ w)
            ++ ["Code complexity " ++ toString (calculate_complexity tree)
                ++ " exceeds maximum " ++ toString MAX_COMPLEXITY])
  else
    (true, (check_patterns tree).map (fun w => "Warning: " ++ w))

/-- `CodeValidator.validate`, as a function of the source length
(`len(code)`) and of the outcome of `ast.parse(code)`.  Returns the pair
`(is_valid, errors)`. -/
def validate (codeLen : Nat) (pr : ParseResult) : Bool × List String :=
  if codeLen > MAX_CODE_LENGTH then
    (false, ["Code exceeds maximum length of " ++ toString MAX_CODE_LENGTH
             ++ " characters"])
  else
    match pr with
    | .synError line msg =>
        (false, ["Syntax error at line " ++ toString line ++ ": " ++ msg])
    | .otherError msg =>
        (false, ["Failed to parse code: " ++ msg])
    | .ok tree => validate_tree tree

/-! ## ExecutionResult and DockerExecutor.execute (app/executors/docker.py)

The result dictionary built by `DockerExecutor.execute`.  The
`execution_time` entry (wall-clock seconds, `round(time.time() - start, 3)`)
is environment-dependent and carries no program logic, so it is not
modelled. -/

structure ExecResult where
  success : Bool
  stdout : String
  stderr : String
  exit_code : Int
  error : Option String
  files : List String
deriving DecidableEq, Repr

/-- `DockerExecutor._truncate_output`. -/
def truncate_output (output : String) : String :=
  if output.length > MAX_OUTPUT_SIZE then
    pySlice output MAX_OUTPUT_SIZE ++
      ("\n\n[Output truncated - exceeded " ++ toString MAX_OUTPUT_SIZE ++ " bytes]")
  else
    output

/-- The observable outcome of the `docker` library calls inside
`DockerExecutor.execute`: either `container.wait` returned normally
(carrying `StatusCode` and the stdout/stderr logs), or an exception was
raised (`ContainerError` with an exit status, or any other exception,
e.g. a wait timeout, carrying its text `str(e)`).  Note that
`containers.run` is called with `detach=True`, for which the docker
library returns the `Container` object immediately and never raises
`ContainerError`; the branch is nevertheless part of the source and is
modelled. -/
inductive ContainerOutcome : Type where
  | completed (statusCode : Int) (stdoutLog stderrLog : String)
  | containerError (exitStatus : Int) (errText : String)
  | otherError (errText : String)

/-- `'timeout' in str(e).lower() or 'timed out' in str(e).lower()`. -/
def isTimeoutText (errText : String) : Bool :=
  pyContains (pyLower errText) "timeout" || pyContains (pyLower errText) "timed out"

/-- `DockerExecutor.execute`, as a function of the container outcome and
of the file URLs produced by `_extract_and_save_files` (an I/O step,
modelled separately by `extract_and_save_files`). -/
def dockerExecute (outcome : ContainerOutcome) (fileUrls : List String) : ExecResult :=
  match outcome with
  | .completed status stdoutLog stderrLog =>
      { success := true
        stdout := truncate_output stdoutLog
        stderr := truncate_output stderrLog
        exit_code := status
        error := none
        files := fileUrls }
  | .containerError status errText =>
      { success := false
        stdout := ""
        stderr := errText
        exit_code := status
        error := some "Container error"
        files := [] }
  | .otherError errText =>
      { success := false
        stdout := ""
        stderr := errText
        exit_code := -1
        error := some (if isTimeoutText errText then "Execution timeout"
                       else "Execution failed")
        files := [] }

/-! ## Bounded file extraction (DockerExecutor._extract_and_save_files)

One entry of the tar archive streamed from the container.  Only the byte
count of the content read by `tar.extractfile(member).read()` is
observable in the extraction bounds, so the content is modelled by its
length; `contentLen = none` models `tar.extractfile` returning a falsy
object. -/

structure TarMember where
  name : String
  isfile : Bool
  size : Nat
  contentLen : Option Nat
deriving DecidableEq, Repr

/-- `Path(member.name).name`: the last path component. -/
def pathBasename (name : String) : String := (pySplit name '/').getLastD ""

/-- The per-member loop of `_extract_and_save_files`.  `save` models the
combined `storage_manager.save_file` / `generate_presigned_url` round
trip for one file: `some url` when a URL is appended, `none` when
`save_file` returns a falsy reference or raises (both are swallowed and
the loop continues). -/
def extractLoop (save : String → Option String) :
    List TarMember → Nat → Nat → List String → List String
  | [], _, _, file_urls => file_urls
  | m :: rest, total_size, file_count, file_urls =>
    if !m.isfile then
      extractLoop save rest total_size file_count file_urls
    else
      let filename := pathBasename m.name
      if pyStartswith filename "." then
        extractLoop save rest total_size file_count file_urls
      else if file_count ≥ MAX_FILE_COUNT then
        file_urls
      else if m.size > MAX_FILE_SIZE then
        extractLoop save rest total_size file_count file_urls
      else if total_size + m.size > MAX_TOTAL_SIZE then
        file_urls
      else
        match m.contentLen with
        | none => extractLoop save rest total_size file_count file_urls
        | some len =>
          if len = 0 then
            extractLoop save rest total_size file_count file_urls
          else
            match save filename with
            | some url =>
                extractLoop save rest (total_size + len) (file_count + 1)
                  (file_urls ++ [url])
            | none =>
                extractLoop save rest (total_size + len) (file_count + 1) file_urls

/-- `_extract_and_save_files` over the member list of the archive
(storage enabled; a missing output directory or a failed archive read
yields no members and hence no URLs). -/
def extract_and_save_files (save : String → Option String)
    (members : List TarMember) : List String :=
  extractLoop save members 0 0 []

/-! ## ExecutionService.execute_code (app/core/service.py) -/

/-- `ExecutionService.execute_code`, as a function of the validated
source (length and parse outcome) and of the result the executor would
return.  The first component models the return value (`Except.error` is
the raised `ValidationError`); the second component records whether
`self.executor.execute` was invoked. -/
def execute_code (codeLen : Nat) (pr : ParseResult) (backendResult : ExecResult) :
    Except String ExecResult × Bool :=
  let v := validate codeLen pr
  if !v.1 then
    let error_msgs := v.2.filter (fun err => !pyStartswith err "Warning:")
    (.error ("Validation failed: " ++ String.intercalate "; " error_msgs), false)
  else
    (.ok backendResult, true)

/-! ## ExecutorRegistry and ExecutorFactory (app/executors/factory.py)

A backend instance is observable through its deterministic
`health_check` answer and an identifying name.  A registry entry maps a
provider name to the outcome of constructing its executor class
(`Except.error` models `__init__` raising).  The factory cache
`_instances` is threaded explicitly as an association list. -/

structure Executor where
  ename : String
  healthy : Bool
deriving DecidableEq, Repr

instance {A B : Type} [DecidableEq A] [DecidableEq B] :
    DecidableEq (Except A B) := fun a b =>
  match a, b with
  | .ok x, .ok y =>
      if h : x = y then .isTrue (congrArg Except.ok h)
      else .isFalse (fun hc => h (Except.ok.inj hc))
  | .error x, .error y =>
      if h : x = y then .isTrue (congrArg Except.error h)
      else .isFalse (fun hc => h (Except.error.inj hc))
  | .ok _, .error _ => .isFalse (fun hc => Except.noConfusion hc)
  | .error _, .ok _ => .isFalse (fun hc => Except.noConfusion hc)

abbrev Registry : Type := List (String × Except String Executor)

abbrev Cache : Type := List (String × Executor)

/-- `ExecutorRegistry.has_provider`. -/
def has_provider (registry : Registry) (provider : String) : Bool :=
  (registry.lookup provider).isSome

/-- Insertion sort on strings (Python `sorted` over the key strings). -/
def insertSorted (x : String) : List String → List String
  | [] => [x]
  | y :: ys => if x ≤ y then x :: y :: ys else y :: insertSorted x ys

def sortStrings : List String → List String
  | [] => []
  | x :: xs => insertSorted x (sortStrings xs)

/-- `ExecutorRegistry.list_providers`: the registered names, sorted. -/
def list_providers (registry : Registry) : List String :=
  sortStrings (registry.map Prod.fst)

/-- `ExecutorFactory.create_executor` for an explicit provider name (the
`None` default resolves to `settings.EXECUTOR_PROVIDER` at the call
site): return the cached instance if present, else look the class up in
the registry (an unknown name is an `ExecutionError`), construct it and
cache it (a constructor exception is wrapped in an `ExecutionError`).
The message texts give the provider name without the surrounding quote
characters used by the f-strings. -/
def create_executor (registry : Registry) (cache : Cache) (provider : String) :
    Except String Executor × Cache :=
  match cache.lookup provider with
  | some e => (.ok e, cache)
  | none =>
    match registry.lookup provider with
    | none =>
        let available :=
          if registry.isEmpty then "none"
          else String.intercalate ", " (registry.map Prod.fst)
        (.error ("Unknown executor provider " ++ provider
                 ++ ". Available providers: " ++ available), cache)
    | some (.ok e) => (.ok e, cache ++ [(provider, e)])
    | some (.error msg) =>
        (.error ("Failed to initialize executor " ++ provider ++ ": " ++ msg),
         cache)

/-- `ExecutorFactory._parse_fallback_providers` for the string form of
the setting: split on commas, strip, drop empty items. -/
def parse_fallback_providers (fallback_config : String) : List String :=
  ((pySplit fallback_config ',').map pyStrip).filter (fun p => !(p == ""))

/-- The error raised when the fallback chain is exhausted. -/
def no_healthy_msg (primary : String) (fallback_providers : List String)
    (registry : Registry) : String :=
  "No healthy executor available. Tried: "
    ++ String.intercalate ", " (primary :: fallback_providers)
    ++ ". Registered providers: "
    ++ String.intercalate ", " (list_providers registry)

/-- The fallback loop of `ExecutorFactory.get_healthy_executor`:
`remaining` is the part of the parsed fallback list not yet tried;
`fallback_providers` is kept whole for the final error message.  The
`try create_executor / health_check / except` body is expressed by
inspecting the outcome and the updated cache of `create_executor`. -/
def tryFallbacks (registry : Registry) (primary : String)
    (fallback_providers : List String) :
    Cache → List String → Except String Executor × Cache
  | cache, [] => (.error (no_healthy_msg primary fallback_providers registry), cache)
  | cache, provider :: remaining =>
    if provider == primary then
      tryFallbacks registry primary fallback_providers cache remaining
    else if !has_provider registry provider then
      tryFallbacks registry primary fallback_providers cache remaining
    else
      match (create_executor registry cache provider).1 with
      | .ok e =>
          if e.healthy then (.ok e, (create_executor registry cache provider).2)
          else
            tryFallbacks registry primary fallback_providers
              (create_executor registry cache provider).2 remaining
      | .error _ =>
          tryFallbacks registry primary fallback_providers
            (create_executor registry cache provider).2 remaining

/-- `ExecutorFactory.get_healthy_executor`, as a function of the
registry, the initial instance cache, and the configured primary and
fallback settings.  Returns the selected executor (or the raised
`ExecutionError`) together with the final instance cache. -/
def get_healthy_executor (registry : Registry) (cache : Cache)
    (primary : String) (fallback_config : String) :
    Except String Executor × Cache :=
  let fallback_providers := parse_fallback_providers fallback_config
  match (create_executor registry cache primary).1 with
  | .ok e =>
      if e.healthy then (.ok e, (create_executor registry cache primary).2)
      else
        tryFallbacks registry primary fallback_providers
          (create_executor registry cache primary).2 fallback_providers
  | .error _ =>
      tryFallbacks registry primary fallback_providers
        (create_executor registry cache primary).2 fallback_providers

/-! ## Guest agent (firecracker-guest-agent/agent.py)

Wire-level byte strings are modelled as `List Nat` with each element a
byte value.  `struct.pack("!I", n)` is the 4-byte big-endian encoding. -/

def pack32be (n : Nat) : List Nat :=
  [n / 16777216 % 256, n / 65536 % 256, n / 256 % 256, n % 256]

/-- A JSON value as produced by the agent handlers (only the shapes the
agent actually builds). -/
inductive JVal : Type where
  | jstr (s : String)
  | jint (n : Int)
  | jbool (b : Bool)
  | jstrList (l : List String)
deriving DecidableEq, Repr

/-- A JSON object, in insertion order. -/
abbrev JObj : Type := List (String × JVal)

/-- `GuestAgent.send_response`: the JSON payload (serialised by the
given `dumps`) prefixed with its 4-byte big-endian length. -/
def send_response (dumps : JObj → List Nat) (response : JObj) : List Nat :=
  pack32be (dumps response).length ++ dumps response

/-- The outcome of `subprocess.run([sys.executable, "-c", code], ...)`
inside the guest. -/
inductive RunOutcome : Type where
  | completed (returncode : Int) (stdout stderr : String)
  | timedOut
  | failed (msg : String)

/-- `GuestAgent.handle_execute`. -/
def handle_execute (outcome : RunOutcome) (timeout : Int) : JObj :=
  match outcome with
  | .completed rc out err =>
      [("success", .jbool (rc == 0)), ("stdout", .jstr out),
       ("stderr", .jstr err), ("exit_code", .jint rc)]
  | .timedOut =>
      [("success", .jbool false), ("stdout", .jstr ""),
       ("stderr", .jstr ("Execution timeout after " ++ toString timeout
                         ++ " seconds")),
       ("exit_code", .jint (-1))]
  | .failed msg =>
      [("success", .jbool false), ("stdout", .jstr ""),
       ("stderr", .jstr msg), ("exit_code", .jint (-1))]

/-- `GuestAgent.handle_list_files`; `listing path = none` models a
non-existent path, `some names` the regular files of the directory. -/
def handle_list_files (listing : String → Option (List String)) (path : String) :
    JObj :=
  match listing path with
  | none => [("files", .jstrList [])]
  | some names => [("files", .jstrList names)]

/-- `GuestAgent.handle_get_file`: the bytes written to the socket.
`fs path = some bytes` models an existing readable regular file;
`none` models `not path.exists()`, `not path.is_file()`, or
`read_bytes` raising (all three send a zero length prefix). -/
def handle_get_file (fs : String → Option (List Nat)) (path : String) : List Nat :=
  match fs path with
  | none => pack32be 0
  | some content => pack32be content.length ++ content

/-- A decoded request object (`json.loads` result), with each field
optional so that the per-handler `request.get(...)` defaults apply. -/
structure GuestRequest where
  action : Option String
  code : Option String
  timeout : Option Int
  path : Option String
deriving DecidableEq, Repr

/-- `GuestAgent.handle_request`, as a function of the decoded request
(`none` models an empty read or a `json.loads` failure, which returns
`False` and ends the connection loop).  `runner` models
`subprocess.run` for given code and timeout.  Returns the bytes written
to the socket and the boolean the method returns (`true` keeps the
per-connection loop alive). -/
def handle_request (dumps : JObj → List Nat)
    (runner : String → Int → RunOutcome)
    (listing : String → Option (List String))
    (fs : String → Option (List Nat))
    (req : Option GuestRequest) : List Nat × Bool :=
  match req with
  | none => ([], false)
  | some r =>
    let action := r.action.getD ""
    if action == "execute" then
      let code := r.code.getD ""
      let timeout := r.timeout.getD 30
      (send_response dumps (handle_execute (runner code timeout) timeout), true)
    else if action == "list_files" then
      (send_response dumps (handle_list_files listing (r.path.getD "/tmp/output")),
       true)
    else if action == "get_file" then
      (handle_get_file fs (r.path.getD ""), true)
    else
      (send_response dumps [("error", .jstr ("Unknown action: " ++ action))], true)

/-! ## Specification-side definitions

Independent restatements of quantities the spec describes, used to
check the source-side computations against the spec text. -/

/-- The decision-point contribution of a single node, as the spec states
it: 1 for a conditional, loop, or exception-handler node; `branches - 1`
for a boolean-operator chain; the generator count for a comprehension
(list/set/dict comprehension). -/
def complexityContrib : PyAst → Int
  | .pyIf _ _ _ => 1
  | .pyWhile _ _ _ => 1
  | .pyFor _ _ _ _ => 1
  | .pyExceptHandler _ => 1
  | .pyBoolOp values => (values.lenP : Int) - 1
  | .pyListComp _ g => (g.lenP : Int)
  | .pyDictComp _ _ g => (g.lenP : Int)
  | .pySetComp _ g => (g.lenP : Int)
  | _ => 0

mutual

/-- Total decision points of a tree, recomputed independently by
structural recursion (the spec formula, without the walk). -/
def specDP : PyAst → Int
  | .pyImport _ => 0
  | .pyImportFrom _ => 0
  | .pyIf t b o => 1 + specDP t + specDPL b + specDPL o
  | .pyWhile t b o => 1 + specDP t + specDPL b + specDPL o
  | .pyFor tg it b o => 1 + specDP tg + specDP it + specDPL b + specDPL o
  | .pyTry b h o f => specDPL b + specDPL h + specDPL o + specDPL f
  | .pyExceptHandler b => 1 + specDPL b
  | .pyBoolOp vs => ((vs.lenP : Int) - 1) + specDPL vs
  | .pyCall f a => specDP f + specDPL a
  | .pyName _ => 0
  | .pyConstant _ => 0
  | .pyListComp e g => (g.lenP : Int) + specDP e + specDPL g
  | .pyDictComp k v g => (g.lenP : Int) + specDP k + specDP v + specDPL g
  | .pySetComp e g => (g.lenP : Int) + specDP e + specDPL g
  | .pyGeneratorExp e g => specDP e + specDPL g
  | .pyComprehension t i ifs => specDP t + specDP i + specDPL ifs
  | .pyModule b => specDPL b
  | .pyOther cs => specDPL cs

def specDPL : PyAstList → Int
  | .nil => 0
  | .cons h t => specDP h + specDPL t

end

/-- The forbidden references contributed by one node (what `importStep`
appends for it). -/
def importContrib : PyAst → List String
  | .pyImport names =>
      names.filter (fun n => FORBIDDEN_IMPORTS.contains (topLevelName n))
  | .pyImportFrom (some m) =>
      if FORBIDDEN_IMPORTS.contains (topLevelName m) then [m] else []
  | _ => []

/-- A node is import-free or a relative import: not an `import`
statement, and if it is a `from ... import`, its node carries no module
name (as for `from . import x`). -/
def relativeImportsOnly : PyAst → Prop
  | .pyImport _ => False
  | .pyImportFrom m => m = none
  | _ => True

instance (n : PyAst) : Decidable (relativeImportsOnly n) := by
  cases n
  all_goals simp only [relativeImportsOnly]
  all_goals infer_instance

/-- The truncation marker appended by `_truncate_output`. -/
def truncationMarker : String :=
  "\n\n[Output truncated - exceeded " ++ toString MAX_OUTPUT_SIZE ++ " bytes]"

/-- A provider constructs successfully and its instance reports
healthy (registry view, independent of any cache). -/
def providerHealthy (registry : Registry) (provider : String) : Bool :=
  match registry.lookup provider with
  | some (.ok e) => e.healthy
  | _ => false

/-- A fallback candidate the loop would accept: not the primary,
registered, constructs, and reports healthy. -/
def goodFallback (registry : Registry) (primary provider : String) : Bool :=
  !(provider == primary) && has_provider registry provider
    && providerHealthy registry provider

/-- The cache is coherent with the registry: every cached instance is
the one the registry constructs for that name. -/
def cacheCoherent (registry : Registry) (cache : Cache) : Prop :=
  ∀ n e, cache.lookup n = some e → registry.lookup n = some (.ok e)

/-! ## Concrete instances used by witnesses and counterexamples -/

/-- The tree of `"import os"`. -/
def exTreeImportOs : PyAst := .pyModule (pl [.pyImport ["os"]])

/-- The tree of `"import os"` followed by `"while True:"` over a `pass`
body: a forbidden import together with an advisory-warning pattern. -/
def exTreeC3 : PyAst :=
  .pyModule (pl [.pyImport ["os"],
    .pyWhile (.pyConstant .pyTrue) (pl [.pyOther .nil]) .nil])

/-- The tree of `"import os"` followed by 21 top-level `if` statements:
a forbidden import together with complexity 22 over the ceiling of 20. -/
def exTreeC5 : PyAst :=
  .pyModule (pl (.pyImport ["os"] ::
    List.replicate 21 (.pyIf (.pyName "x") .nil .nil)))

/-- 21 top-level `if` statements and no import: complexity 22 alone. -/
def exTreeC5ok : PyAst :=
  .pyModule (pl (List.replicate 21 (.pyIf (.pyName "x") .nil .nil)))

/-- The tree of `"from . import helper"`: one relative import. -/
def exTreeRel : PyAst := .pyModule (pl [.pyImportFrom none, .pyOther .nil])

/-- An arbitrary backend result for exercising `execute_code`. -/
def exResult : ExecResult :=
  { success := true, stdout := "", stderr := "", exit_code := 0,
    error := none, files := [] }

/-- A registered docker provider whose instance reports unhealthy. -/
def exDockerUnhealthy : Executor := { ename := "docker", healthy := false }

/-- A registered firecracker provider whose instance reports healthy. -/
def exFirecrackerHealthy : Executor := { ename := "firecracker", healthy := true }

/-- Registry with an unhealthy primary and a healthy fallback. -/
def exRegistry : Registry :=
  [("docker", .ok exDockerUnhealthy), ("firecracker", .ok exFirecrackerHealthy)]

/-- `MAX_FILE_COUNT + 3` non-empty regular non-hidden archive entries. -/
def exMembers13 : List TarMember :=
  (List.range 13).map (fun i =>
    { name := "output/f" ++ toString i, isfile := true, size := 5,
      contentLen := some 5 })

/-- An oversize archive entry (one byte over the per-file ceiling). -/
def exBigMember : TarMember :=
  { name := "output/big.bin", isfile := true, size := MAX_FILE_SIZE + 1,
    contentLen := some (MAX_FILE_SIZE + 1) }

/-- A small well-formed archive entry. -/
def exOkMember : TarMember :=
  { name := "output/ok.txt", isfile := true, size := 3, contentLen := some 3 }

/-- A 10241-character output, one over the output ceiling. -/
def exLongOutput : String := ⟨List.replicate (MAX_OUTPUT_SIZE + 1) 'a'⟩

/-- A guest filesystem with exactly one readable file of two bytes. -/
def exFs : String → Option (List Nat) :=
  fun p => if p == "/tmp/output/a.txt" then some [104, 105] else none

/-- A trivial JSON serialiser stub (its value is irrelevant to the
`get_file` path, which bypasses JSON). -/
def exDumps : JObj → List Nat := fun _ => []

def exRunner : String → Int → RunOutcome := fun _ _ => .timedOut

def exListing : String → Option (List String) := fun _ => none

/-- A `get_file` request for the one readable file of `exFs`. -/
def exGetFileReq : GuestRequest :=
  { action := some "get_file", code := none, timeout := none,
    path := some "/tmp/output/a.txt" }

/-! ## Infrastructure lemmas: strings -/

theorem strData_append (a b : String) : (a ++ b).data = a.data ++ b.data := by
  cases a
  cases b
  rfl

theorem strLength_data (s : String) : s.length = s.data.length := rfl

theorem strLength_append (a b : String) : (a ++ b).length = a.length + b.length := by
  rw [strLength_data, strData_append, List.length_append]
  rfl

/-- Two appends with distinct concrete head characters differ. -/
theorem append_ne_append (c d : Char) (la lb : List Char) (a b x y : String)
    (ha : a.data = c :: la) (hb : b.data = d :: lb) (hcd : c ≠ d) :
    a ++ x ≠ b ++ y := by
  intro h
  have hd := congrArg String.data h
  rw [strData_append, strData_append, ha, hb] at hd
  exact hcd (List.cons.injEq .. ▸ hd).1

/-- An append whose left part starts with `c` differs from a string
starting with `d ≠ c`. -/
theorem append_ne_str (c d : Char) (la lb : List Char) (a b x : String)
    (ha : a.data = c :: la) (hb : b.data = d :: lb) (hcd : c ≠ d) :
    a ++ x ≠ b := by
  intro h
  have hd := congrArg String.data h
  rw [strData_append, ha, hb] at hd
  exact hcd (List.cons.injEq .. ▸ hd).1

/-! ## Infrastructure lemmas: the breadth-first walk -/

theorem sizeL_toList : ∀ l : PyAstList, sizeL l.toList = sizeP l
  | .nil => rfl
  | .cons h t => by simp [PyAstList.toList, sizeL, sizeP, sizeL_toList t]

theorem sizeL_append (a b : List PyAst) : sizeL (a ++ b) = sizeL a + sizeL b := by
  induction a with
  | nil => simp [sizeL]
  | cons h t ih => simp [sizeL, ih]; omega

theorem sizeT_pos (n : PyAst) : 1 ≤ sizeT n := by
  cases n
  all_goals simp [sizeT]
  all_goals omega

theorem children_size (n : PyAst) : sizeL (children n) + 1 = sizeT n := by
  cases n
  all_goals simp [children, sizeT, sizeL, sizeL_append, sizeL_toList]
  all_goals omega

theorem sizeL_eq_zero {q : List PyAst} (h : sizeL q = 0) : q = [] := by
  cases q with
  | nil => rfl
  | cons n rest =>
    exfalso
    have := sizeT_pos n
    simp [sizeL] at h
    omega

theorem walkAux_fuel (f1 : Nat) : ∀ (f2 : Nat) (q : List PyAst),
    sizeL q ≤ f1 → sizeL q ≤ f2 → walkAux f1 q = walkAux f2 q := by
  induction f1 with
  | zero =>
    intro f2 q h1 _
    have hq : q = [] := sizeL_eq_zero (Nat.le_zero.mp h1)
    subst hq
    cases f2 <;> rfl
  | succ f ih =>
    intro f2 q h1 h2
    cases q with
    | nil => cases f2 <;> rfl
    | cons n rest =>
      have hn := sizeT_pos n
      have hsz : sizeL (n :: rest) = sizeT n + sizeL rest := rfl
      cases f2 with
      | zero =>
        exfalso
        omega
      | succ f2 =>
        show n :: walkAux f (rest ++ children n) = n :: walkAux f2 (rest ++ children n)
        have hrs : sizeL (rest ++ children n) = sizeL rest + sizeL (children n) :=
          sizeL_append ..
        have hc := children_size n
        congr 1
        exact ih f2 (rest ++ children n) (by omega) (by omega)

theorem walk_nil : walk [] = [] := rfl

theorem walk_cons (n : PyAst) (rest : List PyAst) :
    walk (n :: rest) = n :: walk (rest ++ children n) := by
  have hn := sizeT_pos n
  have hsz : sizeL (n :: rest) = sizeT n + sizeL rest := rfl
  have hrs : sizeL (rest ++ children n) = sizeL rest + sizeL (children n) :=
    sizeL_append ..
  have hc := children_size n
  show walkAux (sizeL (n :: rest)) (n :: rest) = n :: walk (rest ++ children n)
  have h1 : walkAux (sizeL (n :: rest)) (n :: rest)
      = walkAux (sizeL (rest ++ children n) + 1) (n :: rest) :=
    walkAux_fuel _ _ _ (by omega) (by omega)
  rw [h1]
  rfl

/-- Sum of an integer-valued contribution over the walk. -/
def sumWalk (f : PyAst → Int) (q : List PyAst) : Int :=
  ((walk q).map f).sum

theorem sumWalk_nil (f : PyAst → Int) : sumWalk f [] = 0 := rfl

theorem sumWalk_append (f : PyAst → Int) : ∀ (N : Nat) (a b : List PyAst),
    sizeL (a ++ b) ≤ N → sumWalk f (a ++ b) = sumWalk f a + sumWalk f b := by
  intro N
  induction N with
  | zero =>
    intro a b h
    have h0 : sizeL (a ++ b) = 0 := Nat.le_zero.mp h
    have hab : a ++ b = [] := sizeL_eq_zero h0
    have ha : a = [] := by
      cases a with
      | nil => rfl
      | cons x xs => simp at hab
    subst ha
    simp at hab
    subst hab
    rfl
  | succ N ih =>
    intro a b h
    cases a with
    | nil => simp [sumWalk_nil]
    | cons n rest =>
      have hn := sizeT_pos n
      have hc := children_size n
      have h1 : sizeL ((n :: rest) ++ b) = sizeT n + sizeL rest + sizeL b := by
        rw [List.cons_append]
        show sizeT n + sizeL (rest ++ b) = _
        rw [sizeL_append]
        omega
      have step : sumWalk f ((n :: rest) ++ b)
          = f n + sumWalk f ((rest ++ b) ++ children n) := by
        rw [List.cons_append]
        unfold sumWalk
        rw [walk_cons]
        simp
      rw [step, List.append_assoc]
      have h2 : sizeL (rest ++ (b ++ children n)) ≤ N := by
        rw [sizeL_append, sizeL_append]
        omega
      rw [ih _ _ h2]
      have h3 : sizeL (b ++ children n) ≤ N := by
        rw [sizeL_append]
        have : sizeL (rest ++ (b ++ children n)) =
            sizeL rest + (sizeL b + sizeL (children n)) := by
          rw [sizeL_append, sizeL_append]
        omega
      rw [ih _ _ h3]
      have h4 : sizeL (rest ++ children n) ≤ N := by
        rw [sizeL_append]
        omega
      have step2 : sumWalk f (n :: rest) = f n + sumWalk f (rest ++ children n) := by
        unfold sumWalk
        rw [walk_cons]
        simp
      rw [step2, ih _ _ h4]
      ring

theorem sumWalk_cons (f : PyAst → Int) (n : PyAst) (rest : List PyAst) :
    sumWalk f (n :: rest) = f n + sumWalk f (children n) + sumWalk f rest := by
  have step : sumWalk f (n :: rest) = f n + sumWalk f (rest ++ children n) := by
    unfold sumWalk
    rw [walk_cons]
    simp
  rw [step, sumWalk_append f (sizeL (rest ++ children n)) _ _ (Nat.le_refl _)]
  ring

/-- A structurally-defined node valuation `g` satisfying the one-step
unfolding `g n = f n + Σ g (children n)` agrees with summing `f` over
the breadth-first walk. -/
theorem sumWalk_eq_struct (f g : PyAst → Int)
    (hg : ∀ n, g n = f n + ((children n).map g).sum) :
    ∀ (N : Nat) (q : List PyAst), sizeL q ≤ N →
      sumWalk f q = (q.map g).sum := by
  intro N
  induction N with
  | zero =>
    intro q h
    have hq : q = [] := sizeL_eq_zero (Nat.le_zero.mp h)
    subst hq
    rfl
  | succ N ih =>
    intro q h
    cases q with
    | nil => rfl
    | cons n rest =>
      have hn := sizeT_pos n
      have hc := children_size n
      have hsz : sizeL (n :: rest) = sizeT n + sizeL rest := rfl
      rw [sumWalk_cons]
      rw [ih (children n) (by omega), ih rest (by omega)]
      simp only [List.map_cons, List.sum_cons, hg n]
      try ring

/-! ## Infrastructure lemmas: the validator -/

theorem specDPL_toList : ∀ l : PyAstList, (l.toList.map specDP).sum = specDPL l
  | .nil => rfl
  | .cons h t => by
    simp [PyAstList.toList, specDPL, specDPL_toList t]

theorem specDP_unfold (n : PyAst) :
    specDP n = complexityContrib n + ((children n).map specDP).sum := by
  cases n
  all_goals simp [specDP, complexityContrib, children, List.map_append,
    List.sum_append, specDPL_toList]
  all_goals ring

theorem complexityStep_eq (c : Int) (n : PyAst) :
    complexityStep c n = c + complexityContrib n := by
  cases n
  all_goals simp [complexityStep, complexityContrib]

theorem foldl_complexityStep (L : List PyAst) : ∀ c : Int,
    L.foldl complexityStep c = c + (L.map complexityContrib).sum := by
  induction L with
  | nil => intro c; simp
  | cons n rest ih =>
    intro c
    simp only [List.foldl_cons, List.map_cons, List.sum_cons, ih,
      complexityStep_eq]
    ring

/-- The complexity computed by the walk-and-fold equals the spec formula
`1 + (total decision points, recomputed structurally)`. -/
theorem calculate_complexity_eq (tree : PyAst) :
    calculate_complexity tree = 1 + specDP tree := by
  unfold calculate_complexity
  rw [foldl_complexityStep]
  have h := sumWalk_eq_struct complexityContrib specDP specDP_unfold
    (sizeL [tree]) [tree] (Nat.le_refl _)
  unfold sumWalk at h
  rw [h]
  simp

theorem importStep_eq (acc : List String) (n : PyAst) :
    importStep acc n = acc ++ importContrib n := by
  cases n with
  | pyImportFrom m =>
    cases m with
    | none => simp [importStep, importContrib]
    | some s =>
      simp only [importStep, importContrib]
      split
      all_goals simp
  | _ => first
      | simp [importStep, importContrib]

theorem foldl_importStep (L : List PyAst) : ∀ acc : List String,
    L.foldl importStep acc = acc ++ L.flatMap importContrib := by
  induction L with
  | nil => intro acc; simp
  | cons n rest ih =>
    intro acc
    simp only [List.foldl_cons, List.flatMap_cons, ih, importStep_eq,
      List.append_assoc]

theorem check_imports_eq (tree : PyAst) :
    check_imports tree = (walk [tree]).flatMap importContrib := by
  unfold check_imports
  rw [foldl_importStep]
  rfl

theorem strData_mk (l : List Char) : (String.mk l).data = l := rfl

theorem pySlice_length (s : String) (n : Nat) :
    (pySlice s n).length = min n s.length := by
  rw [strLength_data, strLength_data, pySlice, strData_mk, List.length_take]

/-! ## Infrastructure lemmas: the validate branches and message shapes -/

theorem validate_long (codeLen : Nat) (pr : ParseResult)
    (h : codeLen > MAX_CODE_LENGTH) :
    validate codeLen pr
      = (false, ["Code exceeds maximum length of " ++ toString MAX_CODE_LENGTH
                 ++ " characters"]) := by
  unfold validate
  rw [if_pos h]

theorem validate_ok_eq (codeLen : Nat) (tree : PyAst)
    (h : codeLen ≤ MAX_CODE_LENGTH) :
    validate codeLen (.ok tree) = validate_tree tree := by
  unfold validate
  rw [if_neg (by omega)]

theorem validate_tree_forbidden (tree : PyAst) (himp : check_imports tree ≠ []) :
    validate_tree tree
      = (false, (check_imports tree).map (fun imp => "Forbidden import: " ++ imp)) := by
  unfold validate_tree
  have h : (check_imports tree).isEmpty = false := List.isEmpty_eq_false.mpr himp
  rw [h]
  rfl

theorem validate_tree_complex (tree : PyAst) (himp : check_imports tree = [])
    (hcx : calculate_complexity tree > MAX_COMPLEXITY) :
    validate_tree tree
      = (false, (check_patterns tree).map (fun w => "Warning: " ++ w)
                ++ ["Code complexity " ++ toString (calculate_complexity tree)
                    ++ " exceeds maximum " ++ toString MAX_COMPLEXITY]) := by
  unfold validate_tree
  rw [himp]
  rw [if_neg (by decide), if_pos hcx]

theorem validate_tree_pass (tree : PyAst) (himp : check_imports tree = [])
    (hcx : ¬ calculate_complexity tree > MAX_COMPLEXITY) :
    validate_tree tree
      = (true, (check_patterns tree).map (fun w => "Warning: " ++ w)) := by
  unfold validate_tree
  rw [himp]
  rw [if_neg (by decide), if_neg hcx]

theorem forb_ne_warning (r w : String) :
    "Forbidden import: " ++ r ≠ "Warning: " ++ w :=
  append_ne_append 'F' 'W' "orbidden import: ".data "arning: ".data
    _ _ _ _ rfl rfl (by decide)

theorem forb_ne_lenmsg (r x y : String) :
    "Forbidden import: " ++ r
      ≠ "Code exceeds maximum length of " ++ x ++ y := by
  rw [String.append_assoc]
  exact append_ne_append 'F' 'C' "orbidden import: ".data
    "ode exceeds maximum length of ".data _ _ _ _ rfl rfl (by decide)

theorem forb_ne_cmsg (r x y z : String) :
    "Forbidden import: " ++ r
      ≠ "Code complexity " ++ x ++ y ++ z := by
  rw [String.append_assoc, String.append_assoc]
  exact append_ne_append 'F' 'C' "orbidden import: ".data
    "ode complexity ".data _ _ _ _ rfl rfl (by decide)

/-! ## Claims -/

/-- C8: every output string at most the configured ceiling long is
returned unchanged by `_truncate_output`; a longer one is cut to the
ceiling with the truncation marker appended, and the result never
exceeds `ceiling + marker length`. -/
theorem C8_truncate_output (output : String) :
    (output.length ≤ MAX_OUTPUT_SIZE → truncate_output output = output)
    ∧ (output.length > MAX_OUTPUT_SIZE →
        truncate_output output = pySlice output MAX_OUTPUT_SIZE ++ truncationMarker
        ∧ (truncate_output output).length
            = MAX_OUTPUT_SIZE + truncationMarker.length)
    ∧ (truncate_output output).length ≤ MAX_OUTPUT_SIZE + truncationMarker.length := by
  by_cases h : output.length > MAX_OUTPUT_SIZE
  · have heq : truncate_output output
        = pySlice output MAX_OUTPUT_SIZE ++ truncationMarker := by
      unfold truncate_output truncationMarker
      rw [if_pos h]
    have hlen : (truncate_output output).length
        = MAX_OUTPUT_SIZE + truncationMarker.length := by
      rw [heq, strLength_append, pySlice_length]
      omega
    refine ⟨fun hc => absurd hc (by omega), fun _ => ⟨heq, hlen⟩, by omega⟩
  · have heq : truncate_output output = output := by
      unfold truncate_output
      rw [if_neg h]
    refine ⟨fun _ => heq, fun hc => absurd hc h, ?_⟩
    rw [heq]
    omega

theorem C8_truncate_output_witness :
    ("hello".length ≤ MAX_OUTPUT_SIZE ∧ truncate_output "hello" = "hello")
    ∧ (exLongOutput.length > MAX_OUTPUT_SIZE
       ∧ truncate_output exLongOutput
           = pySlice exLongOutput MAX_OUTPUT_SIZE ++ truncationMarker
       ∧ (truncate_output exLongOutput).length
           = MAX_OUTPUT_SIZE + truncationMarker.length) := by
  have h1 : "hello".length ≤ MAX_OUTPUT_SIZE := by decide
  have h2 : exLongOutput.length > MAX_OUTPUT_SIZE := by
    rw [strLength_data, exLongOutput, strData_mk, List.length_replicate]
    decide
  exact ⟨⟨h1, (C8_truncate_output "hello").1 h1⟩,
    h2, ((C8_truncate_output exLongOutput).2.1 h2).1,
    ((C8_truncate_output exLongOutput).2.1 h2).2⟩

/-- C9: a `get_file` request for a missing or unreadable path is
answered with the 4-byte zero length prefix (no JSON wrapping — the
reply does not depend on the serialiser) and the connection loop stays
alive; an existing readable file is answered with its raw bytes behind
a 4-byte big-endian length prefix. -/
theorem C9_get_file_protocol (dumps : JObj → List Nat)
    (runner : String → Int → RunOutcome)
    (listing : String → Option (List String))
    (fs : String → Option (List Nat))
    (r : GuestRequest) (haction : r.action = some "get_file") :
    (fs (r.path.getD "") = none →
      handle_request dumps runner listing fs (some r) = (pack32be 0, true)
      ∧ pack32be 0 = [0, 0, 0, 0])
    ∧ (∀ content, fs (r.path.getD "") = some content →
      handle_request dumps runner listing fs (some r)
        = (pack32be content.length ++ content, true)) := by
  have hreq : handle_request dumps runner listing fs (some r)
      = (handle_get_file fs (r.path.getD ""), true) := by
    obtain ⟨a, c, t, p⟩ := r
    have ha : a = some "get_file" := haction
    subst ha
    rfl
  constructor
  · intro hnone
    rw [hreq]
    unfold handle_get_file
    rw [hnone]
    exact ⟨rfl, rfl⟩
  · intro content hsome
    rw [hreq]
    unfold handle_get_file
    rw [hsome]

theorem C9_get_file_protocol_witness :
    (handle_request exDumps exRunner exListing exFs (some exGetFileReq)
      = (pack32be 2 ++ [104, 105], true))
    ∧ (handle_request exDumps exRunner exListing exFs
        (some { exGetFileReq with path := some "/tmp/output/missing.txt" })
      = ([0, 0, 0, 0], true)) := by
  constructor
  · have h := (C9_get_file_protocol exDumps exRunner exListing exFs
      exGetFileReq (by decide)).2 [104, 105] (by decide)
    rw [h]
    rfl
  · have h := (C9_get_file_protocol exDumps exRunner exListing exFs
      { exGetFileReq with path := some "/tmp/output/missing.txt" }
      (by decide)).1 (by decide)
    rw [h.1]
    exact congrArg (fun b => (b, true)) h.2

/-- C1: for the failing input `print(undefined_name)` the container runs
detached, `container.wait` returns StatusCode 1 and `ContainerError` is
never raised, so `DockerExecutor.execute` takes the normal-completion
branch and returns `success = True` with the non-zero exit code — the
claimed `success=false` does not hold on the docker path.  The guest
agent's `handle_execute`, by contrast, computes
`success = (returncode == 0)` and does satisfy the claim. -/
theorem C1_runtime_error_divergence :
    dockerExecute
        (.completed 1 "" "NameError: name undefined_name is not defined") []
      = { success := true, stdout := "",
          stderr := "NameError: name undefined_name is not defined",
          exit_code := 1, error := none, files := [] }
    ∧ handle_execute
        (.completed 1 "" "NameError: name undefined_name is not defined") 10
      = [("success", .jbool false), ("stdout", .jstr ""),
         ("stderr", .jstr "NameError: name undefined_name is not defined"),
         ("exit_code", .jint 1)] := by
  constructor
  · decide
  · decide

/-- C2: whenever validation fails, `execute_code` raises a
`ValidationError` whose message is assembled from exactly the
non-warning-prefixed entries of the validator's message list — every
non-warning violation is carried, and the backend's `execute` is never
invoked (the invocation flag is `false`). -/
theorem C2_validation_blocks_backend (codeLen : Nat) (pr : ParseResult)
    (backendResult : ExecResult) (h : (validate codeLen pr).1 = false) :
    execute_code codeLen pr backendResult
      = (.error ("Validation failed: " ++ String.intercalate "; "
          (((validate codeLen pr).2).filter
            (fun err => !pyStartswith err "Warning:"))), false)
    ∧ ∀ e ∈ (validate codeLen pr).2, pyStartswith e "Warning:" = false →
        e ∈ ((validate codeLen pr).2).filter
          (fun err => !pyStartswith err "Warning:") := by
  constructor
  · unfold execute_code
    simp only [h, Bool.not_false, if_true]
  · intro e hmem hw
    rw [List.mem_filter]
    exact ⟨hmem, by rw [hw]; rfl⟩

theorem C2_validation_blocks_backend_witness :
    (validate 9 (.ok exTreeImportOs)).1 = false
    ∧ execute_code 9 (.ok exTreeImportOs) exResult
        = (.error "Validation failed: Forbidden import: os", false) := by
  have hv : (validate 9 (.ok exTreeImportOs)).1 = false := by decide
  refine ⟨hv, ?_⟩
  have h := (C2_validation_blocks_backend 9 (.ok exTreeImportOs) exResult hv).1
  rw [h]
  have hs : ("Validation failed: " ++ String.intercalate "; "
      (((validate 9 (.ok exTreeImportOs)).2).filter
        (fun err => !pyStartswith err "Warning:")))
      = "Validation failed: Forbidden import: os" := by decide
  rw [hs]

/-- C3 counterexample: on a tree with a forbidden import and a
`while True` loop, the pattern pass would produce a warning, yet
`validate` short-circuits at the forbidden-import check and returns an
error list without the warning — so warnings are NOT always included
when an earlier step fails. -/
theorem C3_warnings_counterexample :
    check_patterns exTreeC3 = ["Potential infinite loop detected (while True)"]
    ∧ validate 30 (.ok exTreeC3) = (false, ["Forbidden import: os"])
    ∧ "Warning: Potential infinite loop detected (while True)"
        ∉ (validate 30 (.ok exTreeC3)).2 := by
  refine ⟨by decide, by decide, by decide⟩

/-- C3 amended: `validate` returns ok exactly when the length, parse,
forbidden-import and complexity checks all pass; the advisory warnings
are included in the message list whenever the length, parse, and
forbidden-import checks pass (in particular in both complexity
outcomes), but not when an earlier check short-circuits. -/
theorem C3_ok_iff_and_warnings (codeLen : Nat) (pr : ParseResult) :
    ((validate codeLen pr).1 = true ↔
      (codeLen ≤ MAX_CODE_LENGTH ∧ ∃ t, pr = .ok t ∧ check_imports t = []
        ∧ calculate_complexity t ≤ MAX_COMPLEXITY))
    ∧ (∀ t, pr = .ok t → codeLen ≤ MAX_CODE_LENGTH → check_imports t = [] →
        ∀ w ∈ check_patterns t,
          ("Warning: " ++ w) ∈ (validate codeLen pr).2) := by
  by_cases hlen : codeLen > MAX_CODE_LENGTH
  · rw [validate_long _ pr hlen]
    constructor
    · constructor
      · intro hcontra
        exact absurd hcontra (by decide)
      · rintro ⟨h1, -⟩
        omega
    · intro t _ hle
      omega
  · push_neg at hlen
    cases pr with
    | synError line msg =>
      have hv : validate codeLen (.synError line msg)
          = (false, ["Syntax error at line " ++ toString line ++ ": " ++ msg]) := by
        unfold validate
        rw [if_neg (by omega)]
      rw [hv]
      constructor
      · constructor
        · intro hcontra
          simp at hcontra
        · rintro ⟨-, t, ht, -⟩
          exact absurd ht (by intro h; cases h)
      · intro t ht
        cases ht
    | otherError msg =>
      have hv : validate codeLen (.otherError msg)
          = (false, ["Failed to parse code: " ++ msg]) := by
        unfold validate
        rw [if_neg (by omega)]
      rw [hv]
      constructor
      · constructor
        · intro hcontra
          simp at hcontra
        · rintro ⟨-, t, ht, -⟩
          exact absurd ht (by intro h; cases h)
      · intro t ht
        cases ht
    | ok t =>
      rw [validate_ok_eq _ _ hlen]
      by_cases himp : check_imports t = []
      · by_cases hcx : calculate_complexity t > MAX_COMPLEXITY
        · rw [validate_tree_complex t himp hcx]
          constructor
          · constructor
            · intro hcontra
              simp at hcontra
            · rintro ⟨-, t2, ht2, -, hle⟩
              cases ht2
              omega
          · rintro t2 ht2 - -
            cases ht2
            intro w hw
            exact List.mem_append_left _ (List.mem_map_of_mem _ hw)
        · rw [validate_tree_pass t himp hcx]
          constructor
          · constructor
            · intro _
              exact ⟨hlen, t, rfl, himp, by omega⟩
            · intro _
              rfl
          · rintro t2 ht2 - -
            cases ht2
            intro w hw
            exact List.mem_map_of_mem _ hw
      · rw [validate_tree_forbidden t himp]
        constructor
        · constructor
          · intro hcontra
            simp at hcontra
          · rintro ⟨-, t2, ht2, himp2, -⟩
            cases ht2
            exact absurd himp2 himp
        · rintro t2 ht2 - himp2
          cases ht2
          exact absurd himp2 himp

theorem C3_ok_iff_and_warnings_witness :
    (validate 10
        (.ok (.pyModule (pl [.pyWhile (.pyConstant .pyTrue) .nil .nil])))).1 = true
    ∧ "Warning: Potential infinite loop detected (while True)"
        ∈ (validate 10
            (.ok (.pyModule (pl [.pyWhile (.pyConstant .pyTrue) .nil .nil])))).2 := by
  constructor
  · exact (C3_ok_iff_and_warnings 10
      (.ok (.pyModule (pl [.pyWhile (.pyConstant .pyTrue) .nil .nil])))).1.mpr
      ⟨by decide, _, rfl, by decide, by decide⟩
  · have h := (C3_ok_iff_and_warnings 10
      (.ok (.pyModule (pl [.pyWhile (.pyConstant .pyTrue) .nil .nil])))).2
      _ rfl (by decide) (by decide)
      "Potential infinite loop detected (while True)" (by decide)
    exact h

/-- C4 counterexample: a parseable source longer than the configured
maximum that contains `import os` is rejected by the length check
before the import walk runs, so no forbidden-import error is reported
even though the source contains one forbidden reference. -/
theorem C4_forbidden_counterexample :
    check_imports exTreeImportOs = ["os"]
    ∧ validate 50001 (.ok exTreeImportOs)
        = (false, ["Code exceeds maximum length of 50000 characters"])
    ∧ ((validate 50001 (.ok exTreeImportOs)).2).countP
        (fun e => pyStartswith e "Forbidden import: ") = 0 := by
  refine ⟨by decide, by decide, by decide⟩

/-- C4 amended: for parseable code within the configured length bound,
whenever the import walk finds at least one forbidden reference,
`validate` returns ok=false and the message list is exactly one
`Forbidden import:` error per offending reference, in walk order. -/
theorem C4_forbidden_one_error_each (codeLen : Nat) (tree : PyAst)
    (hlen : codeLen ≤ MAX_CODE_LENGTH) (himp : check_imports tree ≠ []) :
    validate codeLen (.ok tree)
      = (false, (check_imports tree).map (fun imp => "Forbidden import: " ++ imp))
    ∧ ((validate codeLen (.ok tree)).2).length = (check_imports tree).length := by
  have h := validate_tree_forbidden tree himp
  rw [validate_ok_eq _ _ hlen, h]
  exact ⟨rfl, by simp⟩

theorem C4_forbidden_one_error_each_witness :
    check_imports exTreeImportOs = ["os"]
    ∧ validate 9 (.ok exTreeImportOs) = (false, ["Forbidden import: os"])
    ∧ ((validate 9 (.ok exTreeImportOs)).2).length = 1 := by
  have h := C4_forbidden_one_error_each 9 exTreeImportOs (by decide) (by decide)
  refine ⟨by decide, ?_, ?_⟩
  · rw [h.1]
    decide
  · rw [h.2]
    decide

/-- C5 counterexample: a parseable tree carrying a forbidden import and
22 decision points (over the ceiling of 20) is rejected with only the
forbidden-import error — no complexity-exceeded error is reported even
though the total exceeds the ceiling, because the import check
short-circuits first. -/
theorem C5_complexity_counterexample :
    calculate_complexity exTreeC5 = 22
    ∧ MAX_COMPLEXITY = 20
    ∧ validate 100 (.ok exTreeC5) = (false, ["Forbidden import: os"])
    ∧ ((validate 100 (.ok exTreeC5)).2).countP
        (fun e => pyStartswith e "Code complexity") = 0 := by
  refine ⟨by decide, by decide, by decide, by decide⟩

/-- C5 amended: the computed complexity always equals `1 +` the
independently recomputed total of decision points (1 per conditional,
loop, or exception handler; branches−1 per boolean-operator chain; the
generator count per list/set/dict comprehension); and for parseable
code within the length bound that passes the forbidden-import check,
`validate` rejects exactly when that total exceeds the ceiling, with a
complexity-exceeded error reporting the number. -/
theorem C5_complexity_formula (tree : PyAst) :
    calculate_complexity tree = 1 + specDP tree
    ∧ (∀ codeLen, codeLen ≤ MAX_CODE_LENGTH → check_imports tree = [] →
        (((validate codeLen (.ok tree)).1 = false ↔
            1 + specDP tree > MAX_COMPLEXITY)
         ∧ (1 + specDP tree > MAX_COMPLEXITY →
            ("Code complexity " ++ toString (calculate_complexity tree)
              ++ " exceeds maximum " ++ toString MAX_COMPLEXITY)
              ∈ (validate codeLen (.ok tree)).2))) := by
  have hcc := calculate_complexity_eq tree
  refine ⟨hcc, ?_⟩
  intro codeLen hlen himp
  rw [validate_ok_eq _ _ hlen, ← hcc]
  by_cases hcx : calculate_complexity tree > MAX_COMPLEXITY
  · rw [validate_tree_complex tree himp hcx]
    refine ⟨⟨fun _ => hcx, fun _ => rfl⟩, fun _ => ?_⟩
    exact List.mem_append_right _ (List.mem_singleton.mpr rfl)
  · rw [validate_tree_pass tree himp hcx]
    refine ⟨⟨fun hcontra => ?_, fun hgt => absurd hgt hcx⟩,
      fun hgt => absurd hgt hcx⟩
    simp at hcontra

theorem C5_complexity_formula_witness :
    check_imports exTreeC5ok = []
    ∧ calculate_complexity exTreeC5ok = 22
    ∧ (validate 50 (.ok exTreeC5ok)).1 = false
    ∧ "Code complexity 22 exceeds maximum 20"
        ∈ (validate 50 (.ok exTreeC5ok)).2 := by
  have h := (C5_complexity_formula exTreeC5ok).2 50 (by decide) (by decide)
  refine ⟨by decide, by decide, ?_, ?_⟩
  · exact h.1.mpr (by decide)
  · have hm := h.2 (by decide)
    have hmsg : ("Code complexity " ++ toString (calculate_complexity exTreeC5ok)
        ++ " exceeds maximum " ++ toString MAX_COMPLEXITY)
        = "Code complexity 22 exceeds maximum 20" := by decide
    rw [← hmsg]
    exact hm

/-- C10: when every node of the walked tree is import-free or a
module-less `from ... import` (a relative import such as
`from . import x`), the import walk collects nothing, and no
`Forbidden import:` error can appear in the validation messages,
whatever the source length. -/
theorem C10_relative_imports_pass (tree : PyAst) (codeLen : Nat)
    (h : ∀ n ∈ walk [tree], relativeImportsOnly n) :
    check_imports tree = []
    ∧ ∀ r, ("Forbidden import: " ++ r) ∉ (validate codeLen (.ok tree)).2 := by
  have himp : check_imports tree = [] := by
    rw [check_imports_eq, List.flatMap_eq_nil_iff]
    intro n hn
    have hr := h n hn
    cases n with
    | pyImport names => exact absurd hr (by simp [relativeImportsOnly])
    | pyImportFrom m =>
      have hm : m = none := hr
      subst hm
      rfl
    | _ => rfl
  refine ⟨himp, ?_⟩
  intro r
  by_cases hlen : codeLen > MAX_CODE_LENGTH
  · rw [validate_long _ _ hlen]
    intro hmem
    rw [List.mem_singleton] at hmem
    exact forb_ne_lenmsg r (toString MAX_CODE_LENGTH) " characters" hmem
  · rw [validate_ok_eq _ _ (by omega)]
    by_cases hcx : calculate_complexity tree > MAX_COMPLEXITY
    · rw [validate_tree_complex tree himp hcx]
      intro hmem
      rcases List.mem_append.mp hmem with hw | hc
      · obtain ⟨w, -, hweq⟩ := List.mem_map.mp hw
        exact forb_ne_warning r w hweq.symm
      · rw [List.mem_singleton] at hc
        exact forb_ne_cmsg r (toString (calculate_complexity tree))
          " exceeds maximum " (toString MAX_COMPLEXITY) hc
    · rw [validate_tree_pass tree himp hcx]
      intro hmem
      obtain ⟨w, -, hweq⟩ := List.mem_map.mp hmem
      exact forb_ne_warning r w hweq.symm

theorem C10_relative_imports_pass_witness :
    (∀ n ∈ walk [exTreeRel], relativeImportsOnly n)
    ∧ check_imports exTreeRel = []
    ∧ "Forbidden import: os" ∉ (validate 20 (.ok exTreeRel)).2 := by
  have hall : ∀ n ∈ walk [exTreeRel], relativeImportsOnly n := by decide
  have h := C10_relative_imports_pass exTreeRel 20 hall
  refine ⟨hall, h.1, ?_⟩
  have hlit : ("Forbidden import: " ++ "os") = "Forbidden import: os" := by decide
  rw [← hlit]
  exact h.2 "os"

/-- Count invariant of the extraction loop: it can add at most
`MAX_FILE_COUNT - file_count` further URLs. -/
theorem extractLoop_length_le (save : String → Option String) :
    ∀ (members : List TarMember) (total_size file_count : Nat)
      (file_urls : List String),
      (extractLoop save members total_size file_count file_urls).length
        ≤ file_urls.length + (MAX_FILE_COUNT - file_count) := by
  intro members
  induction members with
  | nil =>
    intro total_size file_count file_urls
    simp [extractLoop]
  | cons m rest ih =>
    intro total_size file_count file_urls
    by_cases hf : m.isfile = true
    · by_cases hdot : pyStartswith (pathBasename m.name) "." = true
      · simp only [extractLoop, hf, Bool.not_true, Bool.false_eq_true,
          if_false, hdot, if_true]
        exact ih ..
      · by_cases hcount : file_count ≥ MAX_FILE_COUNT
        · simp only [extractLoop, hf, Bool.not_true, Bool.false_eq_true,
            if_false, hdot, if_pos hcount]
          omega
        · by_cases hsize : m.size > MAX_FILE_SIZE
          · simp only [extractLoop, hf, Bool.not_true, Bool.false_eq_true,
              if_false, hdot, if_neg hcount, if_pos hsize]
            exact ih ..
          · by_cases htot : total_size + m.size > MAX_TOTAL_SIZE
            · simp only [extractLoop, hf, Bool.not_true, Bool.false_eq_true,
                if_false, hdot, if_neg hcount, if_neg hsize, if_pos htot]
              omega
            · cases hc : m.contentLen with
              | none =>
                simp only [extractLoop, hf, Bool.not_true, Bool.false_eq_true,
                  if_false, hdot, if_neg hcount, if_neg hsize, if_neg htot, hc]
                exact ih ..
              | some len =>
                by_cases hlen : len = 0
                · simp only [extractLoop, hf, Bool.not_true, Bool.false_eq_true,
                    if_false, hdot, if_neg hcount, if_neg hsize, if_neg htot,
                    hc, if_pos hlen]
                  exact ih ..
                · cases hs : save (pathBasename m.name) with
                  | some url =>
                    simp only [extractLoop, hf, Bool.not_true, Bool.false_eq_true,
                      if_false, hdot, if_neg hcount, if_neg hsize, if_neg htot,
                      hc, if_neg hlen, hs]
                    have := ih (total_size + len) (file_count + 1)
                      (file_urls ++ [url])
                    simp at this
                    omega
                  | none =>
                    simp only [extractLoop, hf, Bool.not_true, Bool.false_eq_true,
                      if_false, hdot, if_neg hcount, if_neg hsize, if_neg htot,
                      hc, if_neg hlen, hs]
                    have := ih (total_size + len) (file_count + 1) file_urls
                    omega
    · have hf2 : m.isfile = false := by
        cases hm : m.isfile
        · rfl
        · exact absurd hm hf
      simp only [extractLoop, hf2, Bool.not_false, if_true]
      exact ih ..

/-- C7: bounded file extraction.  (1) The extracted URL list never
exceeds the configured maximum file count; (2) a run producing
`MAX_FILE_COUNT + 3` non-empty files yields exactly `MAX_FILE_COUNT`
URLs; (3) an entry over the per-file ceiling is skipped and the
remaining entries are still processed; (4) a non-regular-file entry is
skipped; (5) a dotfile entry is skipped; (6) a zero-byte entry is
skipped; (7) an entry that would push the cumulative size over the
total ceiling stops extraction, keeping only the URLs collected so
far. -/
theorem C7_bounded_extraction :
    (∀ (save : String → Option String) (members : List TarMember),
      (extract_and_save_files save members).length ≤ MAX_FILE_COUNT)
    ∧ (extract_and_save_files some exMembers13).length = MAX_FILE_COUNT
    ∧ (∀ (save : String → Option String) (m : TarMember)
        (rest : List TarMember) (total_size file_count : Nat)
        (file_urls : List String),
        m.isfile = true → pyStartswith (pathBasename m.name) "." = false →
        file_count < MAX_FILE_COUNT → m.size > MAX_FILE_SIZE →
        extractLoop save (m :: rest) total_size file_count file_urls
          = extractLoop save rest total_size file_count file_urls)
    ∧ (∀ (save : String → Option String) (m : TarMember)
        (rest : List TarMember) (total_size file_count : Nat)
        (file_urls : List String),
        m.isfile = false →
        extractLoop save (m :: rest) total_size file_count file_urls
          = extractLoop save rest total_size file_count file_urls)
    ∧ (∀ (save : String → Option String) (m : TarMember)
        (rest : List TarMember) (total_size file_count : Nat)
        (file_urls : List String),
        m.isfile = true → pyStartswith (pathBasename m.name) "." = true →
        extractLoop save (m :: rest) total_size file_count file_urls
          = extractLoop save rest total_size file_count file_urls)
    ∧ (∀ (save : String → Option String) (m : TarMember)
        (rest : List TarMember) (total_size file_count : Nat)
        (file_urls : List String),
        m.isfile = true → pyStartswith (pathBasename m.name) "." = false →
        file_count < MAX_FILE_COUNT → ¬ m.size > MAX_FILE_SIZE →
        ¬ total_size + m.size > MAX_TOTAL_SIZE → m.contentLen = some 0 →
        extractLoop save (m :: rest) total_size file_count file_urls
          = extractLoop save rest total_size file_count file_urls)
    ∧ (∀ (save : String → Option String) (m : TarMember)
        (rest : List TarMember) (total_size file_count : Nat)
        (file_urls : List String),
        m.isfile = true → pyStartswith (pathBasename m.name) "." = false →
        file_count < MAX_FILE_COUNT → ¬ m.size > MAX_FILE_SIZE →
        total_size + m.size > MAX_TOTAL_SIZE →
        extractLoop save (m :: rest) total_size file_count file_urls
          = file_urls) := by
  refine ⟨?_, by decide, ?_, ?_, ?_, ?_, ?_⟩
  · intro save members
    have h := extractLoop_length_le save members 0 0 []
    simpa using h
  · intro save m rest total_size file_count file_urls hf hdot hcount hsize
    simp only [extractLoop, hf, Bool.not_true, Bool.false_eq_true, if_false,
      hdot, if_neg (by omega : ¬ file_count ≥ MAX_FILE_COUNT), if_pos hsize]
  · intro save m rest total_size file_count file_urls hf
    simp only [extractLoop, hf, Bool.not_false, if_true]
  · intro save m rest total_size file_count file_urls hf hdot
    simp only [extractLoop, hf, Bool.not_true, Bool.false_eq_true, if_false,
      hdot, if_true]
  · intro save m rest total_size file_count file_urls hf hdot hcount hsize htot hc
    simp only [extractLoop, hf, Bool.not_true, Bool.false_eq_true, if_false,
      hdot, if_neg (by omega : ¬ file_count ≥ MAX_FILE_COUNT), if_neg hsize,
      if_neg htot, hc, if_true]
  · intro save m rest total_size file_count file_urls hf hdot hcount hsize htot
    simp only [extractLoop, hf, Bool.not_true, Bool.false_eq_true, if_false,
      hdot, if_neg (by omega : ¬ file_count ≥ MAX_FILE_COUNT), if_neg hsize,
      if_pos htot]

theorem C7_bounded_extraction_witness :
    (extract_and_save_files some exMembers13).length = MAX_FILE_COUNT
    ∧ exBigMember.isfile = true
    ∧ pyStartswith (pathBasename exBigMember.name) "." = false
    ∧ exBigMember.size > MAX_FILE_SIZE
    ∧ extractLoop some [exBigMember, exOkMember] 0 0 []
      = extractLoop some [exOkMember] 0 0 [] := by
  refine ⟨C7_bounded_extraction.2.1, by decide, by decide, by decide, ?_⟩
  exact C7_bounded_extraction.2.2.1 some exBigMember [exOkMember]
    0 0 [] (by decide) (by decide) (by decide) (by decide)

/-! ## Infrastructure lemmas: the factory fallback chain -/

theorem create_executor_ok (registry : Registry) (cache : Cache) (p : String)
    (e : Executor) (hcoh : cacheCoherent registry cache)
    (hreg : registry.lookup p = some (.ok e)) :
    (create_executor registry cache p).1 = .ok e
    ∧ cacheCoherent registry (create_executor registry cache p).2
    ∧ (∀ n x, cache.lookup n = some x →
        ((create_executor registry cache p).2).lookup n = some x) := by
  unfold create_executor
  cases hc : cache.lookup p with
  | some e2 =>
    have h2 := hcoh p e2 hc
    rw [hreg] at h2
    have he : e2 = e := by
      injection h2 with h3
      injection h3 with h4
      exact h4.symm
    subst he
    exact ⟨rfl, hcoh, fun n x hx => hx⟩
  | none =>
    rw [hreg]
    refine ⟨rfl, ?_, ?_⟩
    · intro n x hx
      rw [List.lookup_append] at hx
      cases hcn : cache.lookup n with
      | some x2 =>
        rw [hcn] at hx
        simp at hx
        subst hx
        exact hcoh n x2 hcn
      | none =>
        rw [hcn] at hx
        simp only [Option.none_or] at hx
        by_cases hnp : (n == p) = true
        · rw [List.lookup, hnp] at hx
          injection hx with hx2
          subst hx2
          have hnp2 : n = p := eq_of_beq hnp
          subst hnp2
          exact hreg
        · rw [List.lookup] at hx
          rw [Bool.not_eq_true] at hnp
          rw [hnp] at hx
          cases hx
    · intro n x hx
      rw [List.lookup_append, hx]
      rfl

theorem create_executor_fail (registry : Registry) (cache : Cache) (p : String)
    (hcoh : cacheCoherent registry cache)
    (hreg : ∀ e, registry.lookup p ≠ some (.ok e)) :
    (∃ msg, (create_executor registry cache p).1 = .error msg)
    ∧ (create_executor registry cache p).2 = cache := by
  unfold create_executor
  cases hc : cache.lookup p with
  | some e2 => exact absurd (hcoh p e2 hc) (hreg e2)
  | none =>
    cases hr : registry.lookup p with
    | none => exact ⟨⟨_, rfl⟩, rfl⟩
    | some ctor =>
      cases ctor with
      | ok e => exact absurd hr (hreg e)
      | error msg => exact ⟨⟨_, rfl⟩, rfl⟩

theorem providerHealthy_true_iff (registry : Registry) (p : String) :
    providerHealthy registry p = true
      ↔ ∃ e, registry.lookup p = some (.ok e) ∧ e.healthy = true := by
  unfold providerHealthy
  cases hr : registry.lookup p with
  | none => simp
  | some ctor =>
    cases ctor with
    | ok e => simp
    | error msg => simp

/-- The fallback loop selects exactly the first acceptable candidate of
the remaining list (or fails with the exhausted-providers error), and
only ever extends the cache. -/
theorem tryFallbacks_spec (registry : Registry) (primary : String)
    (fallback_providers : List String) :
    ∀ (remaining : List String) (cache : Cache),
      cacheCoherent registry cache →
      ((∀ p, remaining.find? (goodFallback registry primary) = some p →
          ∃ e, registry.lookup p = some (.ok e) ∧ e.healthy = true
            ∧ (tryFallbacks registry primary fallback_providers cache remaining).1
                = .ok e)
       ∧ (remaining.find? (goodFallback registry primary) = none →
          (tryFallbacks registry primary fallback_providers cache remaining).1
            = .error (no_healthy_msg primary fallback_providers registry))
       ∧ (∀ n x, cache.lookup n = some x →
          ((tryFallbacks registry primary fallback_providers cache remaining).2).lookup n
            = some x)) := by
  intro remaining
  induction remaining with
  | nil =>
    intro cache hcoh
    refine ⟨?_, ?_, ?_⟩
    · intro p hp
      rw [List.find?_nil] at hp
      cases hp
    · intro _
      rfl
    · intro n x hx
      exact hx
  | cons q rem ih =>
    intro cache hcoh
    by_cases hq : (q == primary) = true
    · have hloop : tryFallbacks registry primary fallback_providers cache (q :: rem)
          = tryFallbacks registry primary fallback_providers cache rem := by
        simp only [tryFallbacks]
        rw [if_pos hq]
      have hgoodq : goodFallback registry primary q = false := by
        unfold goodFallback
        rw [hq]
        rfl
      have hfind : (q :: rem).find? (goodFallback registry primary)
          = rem.find? (goodFallback registry primary) := by
        rw [List.find?_cons, hgoodq]
      rw [hloop, hfind]
      exact ih cache hcoh
    · have hqf : (q == primary) = false := by
        simpa using hq
      by_cases hreg : has_provider registry q = true
      · have hreg2 : ¬ ((!has_provider registry q) = true) := by
          rw [hreg]
          decide
        cases hr : registry.lookup q with
        | none =>
          exfalso
          unfold has_provider at hreg
          rw [hr] at hreg
          cases hreg
        | some ctor =>
          cases ctor with
          | ok e =>
            obtain ⟨hfst, hcoh2, hmono⟩ :=
              create_executor_ok registry cache q e hcoh hr
            by_cases hh : e.healthy = true
            · have hloop : (tryFallbacks registry primary fallback_providers cache
                  (q :: rem))
                  = (.ok e, (create_executor registry cache q).2) := by
                simp only [tryFallbacks]
                rw [if_neg hq, if_neg hreg2]
                simp only [hfst]
                rw [if_pos hh]
              have hgoodq : goodFallback registry primary q = true := by
                unfold goodFallback
                have h2 : providerHealthy registry q = true := by
                  unfold providerHealthy
                  rw [hr]
                  exact hh
                rw [hqf, h2, hreg]
                rfl
              have hfind : (q :: rem).find? (goodFallback registry primary)
                  = some q := by
                rw [List.find?_cons, hgoodq]
              rw [hloop, hfind]
              refine ⟨?_, ?_, ?_⟩
              · intro p hp
                injection hp with hp2
                subst hp2
                exact ⟨e, hr, hh, rfl⟩
              · intro hcontra
                cases hcontra
              · intro n x hx
                exact hmono n x hx
            · have hloop : tryFallbacks registry primary fallback_providers cache
                  (q :: rem)
                  = tryFallbacks registry primary fallback_providers
                      (create_executor registry cache q).2 rem := by
                simp only [tryFallbacks]
                rw [if_neg hq, if_neg hreg2]
                simp only [hfst]
                rw [if_neg hh]
              have hgoodq : goodFallback registry primary q = false := by
                unfold goodFallback
                have h2 : providerHealthy registry q = false := by
                  unfold providerHealthy
                  rw [hr]
                  simpa using hh
                rw [h2]
                simp
              have hfind : (q :: rem).find? (goodFallback registry primary)
                  = rem.find? (goodFallback registry primary) := by
                rw [List.find?_cons, hgoodq]
              rw [hloop, hfind]
              have hrec := ih (create_executor registry cache q).2 hcoh2
              refine ⟨hrec.1, hrec.2.1, ?_⟩
              intro n x hx
              exact hrec.2.2 n x (hmono n x hx)
          | error msg =>
            obtain ⟨⟨msg2, hfst⟩, hsnd⟩ := create_executor_fail registry cache q hcoh
              (by intro e2 hcontra; rw [hr] at hcontra; cases hcontra)
            have hloop : tryFallbacks registry primary fallback_providers cache
                (q :: rem)
                = tryFallbacks registry primary fallback_providers
                    (create_executor registry cache q).2 rem := by
              simp only [tryFallbacks]
              rw [if_neg hq, if_neg hreg2]
              simp only [hfst]
            have hgoodq : goodFallback registry primary q = false := by
              unfold goodFallback
              have h2 : providerHealthy registry q = false := by
                unfold providerHealthy
                rw [hr]
              rw [h2]
              simp
            have hfind : (q :: rem).find? (goodFallback registry primary)
                = rem.find? (goodFallback registry primary) := by
              rw [List.find?_cons, hgoodq]
            rw [hloop, hfind, hsnd]
            exact ih cache hcoh
      · have hp2 : has_provider registry q = false := by
          simpa using hreg
        have hloop : tryFallbacks registry primary fallback_providers cache
            (q :: rem)
            = tryFallbacks registry primary fallback_providers cache rem := by
          simp only [tryFallbacks]
          rw [if_neg hq]
          rw [if_pos (by rw [hp2]; rfl : (!has_provider registry q) = true)]
        have hgoodq : goodFallback registry primary q = false := by
          unfold goodFallback
          rw [hp2]
          simp
        have hfind : (q :: rem).find? (goodFallback registry primary)
            = rem.find? (goodFallback registry primary) := by
          rw [List.find?_cons, hgoodq]
        rw [hloop, hfind]
        exact ih cache hcoh

theorem create_executor_empty (registry : Registry) (p : String) :
    create_executor registry [] p
      = match registry.lookup p with
        | none =>
            (.error ("Unknown executor provider " ++ p
              ++ ". Available providers: "
              ++ (if registry.isEmpty then "none"
                  else String.intercalate ", " (registry.map Prod.fst))), [])
        | some (.ok e) => (.ok e, [(p, e)])
        | some (.error msg) =>
            (.error ("Failed to initialize executor " ++ p ++ ": " ++ msg), []) := by
  unfold create_executor
  cases hr : registry.lookup p with
  | none => rfl
  | some ctor =>
    cases ctor with
    | ok e => rfl
    | error msg => rfl

/-- C6: `get_healthy_executor`, started with an empty instance cache.
(1) If the primary provider constructs and reports healthy, it is
returned.  (2) Otherwise the configured ordered fallback list is
scanned and the first entry that is not the primary, is registered,
constructs, and reports healthy is returned; if no entry qualifies the
call fails with the error message enumerating the primary, the whole
fallback list, and the sorted registered providers; and when the
primary did construct (but was unhealthy), its instance is still in
the final cache under the primary name. -/
theorem C6_health_driven_fallback (registry : Registry)
    (primary fallback_config : String) :
    (providerHealthy registry primary = true →
      ∃ e, registry.lookup primary = some (.ok e) ∧ e.healthy = true
        ∧ (get_healthy_executor registry [] primary fallback_config).1 = .ok e)
    ∧ (providerHealthy registry primary = false →
        (∀ p, (parse_fallback_providers fallback_config).find?
            (goodFallback registry primary) = some p →
          ∃ e, registry.lookup p = some (.ok e) ∧ e.healthy = true
            ∧ (get_healthy_executor registry [] primary fallback_config).1
                = .ok e)
        ∧ ((parse_fallback_providers fallback_config).find?
            (goodFallback registry primary) = none →
          (get_healthy_executor registry [] primary fallback_config).1
            = .error (no_healthy_msg primary
                (parse_fallback_providers fallback_config) registry))
        ∧ (∀ e, registry.lookup primary = some (.ok e) →
            ((get_healthy_executor registry [] primary
                fallback_config).2).lookup primary = some e)) := by
  have hce := create_executor_empty registry primary
  cases hl : registry.lookup primary with
  | none =>
    rw [hl] at hce
    have hfst : (create_executor registry [] primary).1
        = .error ("Unknown executor provider " ++ primary
            ++ ". Available providers: "
            ++ (if registry.isEmpty then "none"
                else String.intercalate ", " (registry.map Prod.fst))) := by
      rw [hce]
    have hsnd : (create_executor registry [] primary).2 = [] := by
      rw [hce]
    have hph : providerHealthy registry primary = false := by
      unfold providerHealthy
      rw [hl]
    have hmain : get_healthy_executor registry [] primary fallback_config
        = tryFallbacks registry primary
            (parse_fallback_providers fallback_config) []
            (parse_fallback_providers fallback_config) := by
      simp only [get_healthy_executor, hfst]
      rw [hsnd]
    have hcoh : cacheCoherent registry ([] : Cache) := by
      intro n x hx
      cases hx
    have hspec := tryFallbacks_spec registry primary
      (parse_fallback_providers fallback_config)
      (parse_fallback_providers fallback_config) [] hcoh
    constructor
    · intro hcontra
      rw [hph] at hcontra
      cases hcontra
    · intro _
      rw [hmain]
      refine ⟨hspec.1, hspec.2.1, ?_⟩
      intro e he
      cases he
  | some ctor =>
    cases ctor with
    | error msg =>
      rw [hl] at hce
      have hfst : (create_executor registry [] primary).1
          = .error ("Failed to initialize executor " ++ primary
              ++ ": " ++ msg) := by
        rw [hce]
      have hsnd : (create_executor registry [] primary).2 = [] := by
        rw [hce]
      have hph : providerHealthy registry primary = false := by
        unfold providerHealthy
        rw [hl]
      have hmain : get_healthy_executor registry [] primary fallback_config
          = tryFallbacks registry primary
              (parse_fallback_providers fallback_config) []
              (parse_fallback_providers fallback_config) := by
        simp only [get_healthy_executor, hfst]
        rw [hsnd]
      have hcoh : cacheCoherent registry ([] : Cache) := by
        intro n x hx
        cases hx
      have hspec := tryFallbacks_spec registry primary
        (parse_fallback_providers fallback_config)
        (parse_fallback_providers fallback_config) [] hcoh
      constructor
      · intro hcontra
        rw [hph] at hcontra
        cases hcontra
      · intro _
        rw [hmain]
        refine ⟨hspec.1, hspec.2.1, ?_⟩
        intro e he
        cases he
    | ok e =>
      rw [hl] at hce
      have hfst : (create_executor registry [] primary).1 = .ok e := by
        rw [hce]
      have hsnd : (create_executor registry [] primary).2 = [(primary, e)] := by
        rw [hce]
      have hph : providerHealthy registry primary = e.healthy := by
        unfold providerHealthy
        rw [hl]
      by_cases hh : e.healthy = true
      · have hmain : get_healthy_executor registry [] primary fallback_config
            = (.ok e, (create_executor registry [] primary).2) := by
          simp only [get_healthy_executor, hfst]
          rw [if_pos hh]
        constructor
        · intro _
          exact ⟨e, rfl, hh, by rw [hmain]⟩
        · intro hcontra
          rw [hph, hh] at hcontra
          cases hcontra
      · have hmain : get_healthy_executor registry [] primary fallback_config
            = tryFallbacks registry primary
                (parse_fallback_providers fallback_config) [(primary, e)]
                (parse_fallback_providers fallback_config) := by
          simp only [get_healthy_executor, hfst]
          rw [if_neg hh, hsnd]
        have hcoh : cacheCoherent registry [(primary, e)] := by
          intro n x hx
          by_cases hnp : (n == primary) = true
          · rw [List.lookup, hnp] at hx
            injection hx with hx2
            subst hx2
            have : n = primary := eq_of_beq hnp
            subst this
            exact hl
          · rw [List.lookup] at hx
            rw [Bool.not_eq_true] at hnp
            rw [hnp] at hx
            cases hx
        have hspec := tryFallbacks_spec registry primary
          (parse_fallback_providers fallback_config)
          (parse_fallback_providers fallback_config) [(primary, e)] hcoh
        constructor
        · intro hcontra
          rw [hph] at hcontra
          exact absurd hcontra hh
        · intro _
          rw [hmain]
          refine ⟨hspec.1, hspec.2.1, ?_⟩
          intro e2 he2
          have he3 : e2 = e := by
            injection he2 with h3
            injection h3 with h4
            exact h4.symm
          subst he3
          refine hspec.2.2 primary e2 ?_
          have hpp : (primary == primary) = true := by
            exact beq_self_eq_true primary
          rw [List.lookup, hpp]

theorem C6_health_driven_fallback_witness :
    providerHealthy exRegistry "docker" = false
    ∧ (get_healthy_executor exRegistry [] "docker" "docker,firecracker").1
        = .ok exFirecrackerHealthy
    ∧ ((get_healthy_executor exRegistry [] "docker"
        "docker,firecracker").2).lookup "docker" = some exDockerUnhealthy := by
  have h := (C6_health_driven_fallback exRegistry "docker"
    "docker,firecracker").2 (by decide)
  refine ⟨by decide, ?_, ?_⟩
  · obtain ⟨e, he, hh, hres⟩ := h.1 "firecracker" (by decide)
    have hv : List.lookup "firecracker" exRegistry
        = some (Except.ok exFirecrackerHealthy) := by decide
    rw [hv] at he
    have he2 : e = exFirecrackerHealthy := by
      injection he with h3
      injection h3 with h4
      exact h4.symm
    subst he2
    exact hres
  · exact h.2.2 exDockerUnhealthy (by decide)

end Sandbox
